import Mathlib

/-!
Shallow embedding of the segment-normalization and video-cutting core of
`app.py` (the helper `timestamp_to_seconds`, the class `NormalizeCSVStep`
and the class `CutVideoStep`).

Conventions of the embedding:
* Python `float` values are modelled as exact rationals (`ℚ`).  The values
  in this domain are timestamps handled at millisecond granularity and the
  tolerance statements are `≤ 1/1000`, so the binary rounding of IEEE
  doubles is abstracted away.
* Python exceptions are modelled by `Option` (`none` = an exception was
  raised) or by dedicated error constructors.
* The Python builtins `int(str)` and `float(str)` are modelled on the
  timestamp domain: an optional sign followed by decimal digits, and for
  `float` an optional `.`-separated fractional part.  CPython extras that
  cannot occur in the timestamps handled by this pipeline (surrounding
  whitespace, underscore digit separators, exponents, `inf`/`nan`,
  non-ASCII digits) are not modelled.
* Filesystem and subprocess effects of `CutVideoStep.execute` are modelled
  by an explicit trace (`CutTrace`): which segment indices the external
  trim tool was invoked for, which chunk files were created (a failing trim
  invocation is assumed to create no output file), whether the concat
  manifest was written, whether the merge invocation ran, which files were
  deleted and whether the final output file was produced.
-/

/-- The character of the decimal digit `d` (meaningful for `d < 10`). -/
def digitChar (d : Nat) : Char := Char.ofNat (48 + d)

/-- Numeric value of a decimal digit character. -/
def charVal (c : Char) : Nat := c.toNat - 48

/-- Value of a big-endian list of decimal digit characters, as read by the
Python builtins `int` and `float`. -/
def digitsToNat (l : List Char) : Nat := l.foldl (fun a c => 10 * a + charVal c) 0

/-- Models CPython `int(str)` on the timestamp domain: an optional sign
followed by one or more decimal digits.  `none` models a raised
`ValueError`. -/
def parsePyIntL (l : List Char) : Option Int :=
  match l with
  | [] => none
  | c :: rest =>
    if c = '+' then
      if rest ≠ [] ∧ rest.all Char.isDigit then some (digitsToNat rest : Int) else none
    else if c = '-' then
      if rest ≠ [] ∧ rest.all Char.isDigit then some (-(digitsToNat rest : Int)) else none
    else if (c :: rest).all Char.isDigit then some (digitsToNat (c :: rest) : Int)
    else none

/-- Models CPython `float(str)` on an unsigned decimal literal: digits with
an optional `.` and fraction digits, at least one digit in total.  `none`
models a raised `ValueError`. -/
def parsePyFloatCore (l : List Char) : Option ℚ :=
  let ip := l.takeWhile Char.isDigit
  match l.dropWhile Char.isDigit with
  | [] => if ip = [] then none else some (digitsToNat ip : ℚ)
  | c :: fp =>
    if c = '.' ∧ fp.all Char.isDigit ∧ (ip ≠ [] ∨ fp ≠ []) then
      some ((digitsToNat ip : ℚ) + (digitsToNat fp : ℚ) / 10 ^ fp.length)
    else none

/-- Models CPython `float(str)` on the timestamp domain: an optional sign
followed by an unsigned decimal literal. -/
def parsePyFloatL (l : List Char) : Option ℚ :=
  match l with
  | [] => none
  | c :: rest =>
    if c = '+' then parsePyFloatCore rest
    else if c = '-' then (parsePyFloatCore rest).map (fun q => -q)
    else parsePyFloatCore l

/-- Models Python `str.split(":")` on the character list of the string. -/
def splitOnColon : List Char → List (List Char)
  | [] => [[]]
  | c :: rest =>
    if c = ':' then [] :: splitOnColon rest
    else
      match splitOnColon rest with
      | [] => [[c]]
      | h :: t => (c :: h) :: t

/-- Models `timestamp_to_seconds` (app.py lines 256-260):
`parts = ts.split(":")`, then
`h, m, s = int(parts[0]), int(parts[1]), float(parts[2])` and
`h * 3600 + m * 60 + s`.  Fields beyond the third are ignored exactly as
the source does; fewer than three fields is an `IndexError` and a
non-numeric field a `ValueError`, both modelled by `none`. -/
def timestamp_to_seconds (ts : String) : Option ℚ :=
  match splitOnColon ts.toList with
  | p0 :: p1 :: p2 :: _ =>
    match parsePyIntL p0 with
    | none => none
    | some h =>
      match parsePyIntL p1 with
      | none => none
      | some m =>
        match parsePyFloatL p2 with
        | none => none
        | some s => some ((h : ℚ) * 3600 + (m : ℚ) * 60 + s)
  | _ => none

/-- Python `a % b` on floats, for a positive modulus `b`. -/
def pyMod (a b : ℚ) : ℚ := a - b * ⌊a / b⌋

/-- Round to the nearest integer, ties to even: the rounding CPython applies
when formatting a value with `%.3f`. -/
def roundHalfEven (q : ℚ) : ℤ :=
  if Int.fract q < 1 / 2 then ⌊q⌋
  else if 1 / 2 < Int.fract q then ⌊q⌋ + 1
  else if ⌊q⌋ % 2 = 0 then ⌊q⌋ else ⌊q⌋ + 1

/-- Digits of a natural number, big-endian, computed with explicit fuel so
that the definition is structural (any fuel above the digit count is
enough). -/
def natDigitsCore : Nat → Nat → List Char
  | 0, _ => []
  | fuel + 1, n =>
    if n < 10 then [digitChar n]
    else natDigitsCore fuel (n / 10) ++ [digitChar (n % 10)]

/-- Decimal rendering of a natural number (models Python rendering of a
nonnegative `int`; `0` renders as `"0"`). -/
def natDigits (n : Nat) : List Char := natDigitsCore (n + 1) n

/-- Left-pad a character list with `'0'` to width `k` (models the zero
padding of Python format specs such as `02d` and `04d`). -/
def padLeftZeros (k : Nat) (l : List Char) : List Char :=
  List.replicate (k - l.length) '0' ++ l

/-- Models the f-string fragment `f"{z:02d}"`: for a nonnegative value the
digits padded with zeros to width two, for a negative value the sign
followed by the digits (CPython counts the sign into the width, so `-1`
renders as `"-1"`). -/
def formatInt02 (z : ℤ) : List Char :=
  if z < 0 then '-' :: natDigits (-z).toNat
  else padLeftZeros 2 (natDigits z.toNat)

/-- Models the f-string fragment `f"{q:06.3f}"` for `0 ≤ q` (in the source
the argument is always `duration % 60`, which is nonnegative): the value
rounded to three decimal places, rendered with exactly three fraction
digits and the integer part zero-padded to width two (total width six). -/
def formatFixed3 (q : ℚ) : List Char :=
  let n := (roundHalfEven (q * 1000)).toNat
  padLeftZeros 2 (natDigits (n / 1000)) ++ '.' ::
    [digitChar (n % 1000 / 100), digitChar (n % 1000 / 10 % 10), digitChar (n % 10)]

/-- Models the formatting part of `CutVideoStep._calc_duration` (app.py
lines 341-344): `h = int(duration // 3600)`,
`m = int((duration % 3600) // 60)`, `s = duration % 60`, rendered as
`f"{h:02d}:{m:02d}:{s:06.3f}"`. -/
def format_seconds (duration : ℚ) : String :=
  let h : ℤ := ⌊duration / 3600⌋
  let m : ℤ := ⌊pyMod duration 3600 / 60⌋
  let s : ℚ := pyMod duration 60
  String.mk (formatInt02 h ++ ':' :: (formatInt02 m ++ ':' :: formatFixed3 s))

/-- Models `CutVideoStep._calc_duration` (app.py lines 338-344).  The
difference of the parsed timestamps is computed and formatted with no
check on its sign; `none` models a `ValueError` raised by
`timestamp_to_seconds`. -/
def calc_duration (from_ts to_ts : String) : Option String :=
  match timestamp_to_seconds to_ts with
  | none => none
  | some t =>
    match timestamp_to_seconds from_ts with
    | none => none
    | some f => some (format_seconds (t - f))

theorem charVal_0 : charVal '0' = 0 := rfl
theorem charVal_1 : charVal '1' = 1 := rfl
theorem charVal_2 : charVal '2' = 2 := rfl
theorem charVal_3 : charVal '3' = 3 := rfl
theorem charVal_4 : charVal '4' = 4 := rfl
theorem charVal_5 : charVal '5' = 5 := rfl
theorem charVal_6 : charVal '6' = 6 := rfl
theorem charVal_7 : charVal '7' = 7 := rfl
theorem charVal_8 : charVal '8' = 8 := rfl
theorem charVal_9 : charVal '9' = 9 := rfl

theorem digitChar_0 : digitChar 0 = '0' := rfl
theorem digitChar_1 : digitChar 1 = '1' := rfl
theorem digitChar_2 : digitChar 2 = '2' := rfl
theorem digitChar_3 : digitChar 3 = '3' := rfl
theorem digitChar_4 : digitChar 4 = '4' := rfl
theorem digitChar_5 : digitChar 5 = '5' := rfl
theorem digitChar_6 : digitChar 6 = '6' := rfl
theorem digitChar_7 : digitChar 7 = '7' := rfl
theorem digitChar_8 : digitChar 8 = '8' := rfl
theorem digitChar_9 : digitChar 9 = '9' := rfl

example : timestamp_to_seconds "00:00:12" = some 12 := by
  simp +decide [timestamp_to_seconds, splitOnColon, parsePyIntL, parsePyFloatL, parsePyFloatCore,
    digitsToNat, charVal]

example : timestamp_to_seconds "1:2:3:4" = some 3723 := by
  simp +decide [timestamp_to_seconds, splitOnColon, parsePyIntL, parsePyFloatL, parsePyFloatCore,
    digitsToNat, charVal]
  norm_num

example : timestamp_to_seconds "01:02:03.5" = some (3723 + 1 / 2) := by
  simp +decide [timestamp_to_seconds, splitOnColon, parsePyIntL, parsePyFloatL, parsePyFloatCore,
    digitsToNat, charVal]
  norm_num

example : calc_duration "00:00:05" "00:00:00" =
    some (format_seconds ((0 : ℚ) - 5)) := by
  norm_num +decide [calc_duration, timestamp_to_seconds, splitOnColon, parsePyIntL,
    parsePyFloatL, parsePyFloatCore, digitsToNat, charVal_0, charVal_5]

/-- One segment row as read from the CSV by `NormalizeCSVStep.execute`
(app.py lines 287-291): the `from_timestamp`, `to_timestamp` and
`short_description` columns. -/
structure Segment where
  fromTs : String
  toTs : String
  desc : String
  deriving DecidableEq, Repr

/-- One output row as written back by `NormalizeCSVStep.execute` (app.py
lines 314-316): the columns `from_timestamp, to_timestamp, file,
short_description`. -/
structure OutRow where
  fromTs : String
  toTs : String
  file : String
  desc : String
  deriving DecidableEq, Repr

/-- Failure modes of the normalization step: `EmptyInput` models
`StepResult(success=False, message="No segments in CSV")`, `raised` models
a `ValueError` escaping from `timestamp_to_seconds`. -/
inductive NormError where
  | EmptyInput
  | raised
  deriving DecidableEq, Repr

/-- The merge loop of `NormalizeCSVStep.execute` (app.py lines 297-309),
with the mutable last entry of the `merged` accumulator passed explicitly
as `prev`: entries before `prev` are final (the loop never touches them
again), so the loop is equivalent to consing `prev` once a gap above the
threshold is met.  A merge replaces `prev` by a segment with the same
start, the current segment's end (`prev["to"] = seg["to"]`) and the
descriptions joined by `"; "`.  `none` models a `ValueError` raised by
`timestamp_to_seconds`. -/
def mergeLoop (t : ℚ) : Segment → List Segment → Option (List Segment)
  | prev, [] => some [prev]
  | prev, seg :: rest =>
    match timestamp_to_seconds prev.toTs with
    | none => none
    | some prev_end =>
      match timestamp_to_seconds seg.fromTs with
      | none => none
      | some curr_start =>
        if curr_start - prev_end ≤ t then
          mergeLoop t ⟨prev.fromTs, seg.toTs, prev.desc ++ "; " ++ seg.desc⟩ rest
        else
          match mergeLoop t seg rest with
          | none => none
          | some tail => some (prev :: tail)

/-- Models the f-string `f"{i:04d}.mp4"` (app.py line 316). -/
def fileName (i : Nat) : String := String.mk (padLeftZeros 4 (natDigits i) ++ ".mp4".toList)

/-- Models the output loop `for i, seg in enumerate(merged, 1)` (app.py
lines 315-316): each accumulator entry becomes a CSV row with a sequential
zero-padded filename. -/
def renumberFrom : Nat → List Segment → List OutRow
  | _, [] => []
  | i, seg :: rest => ⟨seg.fromTs, seg.toTs, fileName i, seg.desc⟩ :: renumberFrom (i + 1) rest

/-- The segment-table transformation of `NormalizeCSVStep.execute` (app.py
lines 293-316): fail on an empty table, otherwise merge adjacent segments
whose gap is at most `gap_threshold` and renumber the result with
filenames `0001.mp4`, `0002.mp4`, ... -/
def NormalizeCSVStep.execute (segments : List Segment) (gap_threshold : ℚ) : Except NormError (List OutRow) :=
  match segments with
  | [] => .error .EmptyInput
  | s0 :: rest =>
    match mergeLoop gap_threshold s0 rest with
    | none => .error .raised
    | some merged => .ok (renumberFrom 1 merged)

/-- Re-reading a row written by the normalizer: `NormalizeCSVStep.execute`
reads only `from_timestamp`, `to_timestamp` and `short_description`; the
`file` column is ignored on input. -/
def rowToSegment (r : OutRow) : Segment := ⟨r.fromTs, r.toTs, r.desc⟩

example : NormalizeCSVStep.execute [] 3 = .error .EmptyInput := rfl

/-- A CSV row presented as an association of column names to values
(models a `csv.DictReader` row). -/
def lookupField : List (String × String) → String → Option String
  | [], _ => none
  | (k, v) :: rest, key => if k = key then some v else lookupField rest key

/-- Models the row-reading of `NormalizeCSVStep.execute` (app.py lines
287-291): `row["from_timestamp"]` and `row["to_timestamp"]` raise
`KeyError` when absent (modelled by `none`), while the description is read
with `row.get("short_description", "")`. -/
def readSegment (row : List (String × String)) : Option Segment :=
  match lookupField row "from_timestamp" with
  | none => none
  | some f =>
    match lookupField row "to_timestamp" with
    | none => none
    | some t => some ⟨f, t, (lookupField row "short_description").getD ""⟩

/-- One segment row as read from the CSV by `CutVideoStep.execute` (app.py
lines 360-365): the `from_timestamp`, `to_timestamp` and `file` columns. -/
structure CutRow where
  fromTs : String
  toTs : String
  file : String
  deriving DecidableEq, Repr

/-- How the cut loop of `CutVideoStep.execute` ends early: `raised` models
a `ValueError` escaping from `_calc_duration`, `trimFail i msg` models the
external trim invocation returning a nonzero exit code for the segment at
0-based index `i` with stderr `msg`. -/
inductive LoopErr where
  | raised
  | trimFail (i : Nat) (msg : String)
  deriving DecidableEq, Repr

/-- Observable outcome of the cut loop: the 0-based indices for which the
trim tool was invoked, the chunk files created (one per successful trim
invocation, in order), and how the loop ended (`none` = all segments cut). -/
structure LoopOut where
  trimmed : List Nat
  created : List String
  err : Option LoopErr
  deriving DecidableEq, Repr

/-- The cut loop of `CutVideoStep.execute` (app.py lines 371-393): for each
segment in order, compute the duration (a malformed timestamp raises), run
the external trim tool, and stop at the first failing invocation.  `trim i`
is the exit status of the external `ffmpeg` trim invocation for segment
`i`; a failing invocation is assumed to create no chunk file. -/
def cutLoop (trim : Nat → Except String Unit) : List CutRow → Nat → LoopOut
  | [], _ => ⟨[], [], none⟩
  | row :: rest, i =>
    match calc_duration row.fromTs row.toTs with
    | none => ⟨[], [], some .raised⟩
    | some _ =>
      match trim i with
      | .error e => ⟨[i], [], some (.trimFail i e)⟩
      | .ok _ =>
        let r := cutLoop trim rest (i + 1)
        ⟨i :: r.trimmed, row.file :: r.created, r.err⟩

/-- How `CutVideoStep.execute` ends: `raised` models an uncaught exception,
`failed msg` a `StepResult(success=False, message=msg)` and `ok msg` a
`StepResult(success=True, message=msg)`. -/
inductive CutResult where
  | raised
  | failed (msg : String)
  | ok (msg : String)
  deriving DecidableEq, Repr

/-- Observable trace of one `CutVideoStep.execute` run: trim invocations,
chunk files created, whether `concat.txt` was written, whether the external
merge invocation ran, the files deleted at the end, the final output file
(`compressed.mp4`, created by a successful merge) and the step result. -/
structure CutTrace where
  trimmed : List Nat
  created : List String
  manifestWritten : Bool
  mergeAttempted : Bool
  deleted : List String
  output : Option String
  result : CutResult
  deriving DecidableEq, Repr

/-- Models `CutVideoStep.execute` (app.py lines 346-426) over the explicit
collaborators: `videoExists`/`csvExists` are the `Path.exists` checks for
`video.mp4` and `video.csv`, `rows` the parsed CSV, `trim i` the exit
status of the trim invocation for segment `i` and `merge` the exit status
of the concat invocation.  On a trim failure the step returns
`f"Failed to cut segment {i+1}: {stderr}"` immediately: the manifest is
not written, the merge never runs and nothing is deleted.  On merge
failure nothing is deleted either.  Only on full success are all chunk
files and `concat.txt` deleted and `compressed.mp4` produced. -/
def CutVideoStep.execute (videoExists csvExists : Bool) (rows : List CutRow)
    (trim : Nat → Except String Unit) (merge : Except String Unit) : CutTrace :=
  if ¬videoExists then ⟨[], [], false, false, [], none, .failed "video.mp4 not found"⟩
  else if ¬csvExists then ⟨[], [], false, false, [], none, .failed "video.csv not found"⟩
  else if rows.isEmpty then ⟨[], [], false, false, [], none, .failed "No segments found in CSV"⟩
  else
    let lp := cutLoop trim rows 0
    match lp.err with
    | some .raised => ⟨lp.trimmed, lp.created, false, false, [], none, .raised⟩
    | some (.trimFail i e) =>
      ⟨lp.trimmed, lp.created, false, false, [], none,
        .failed ("Failed to cut segment " ++ toString (i + 1) ++ ": " ++ e)⟩
    | none =>
      match merge with
      | .error e =>
        ⟨lp.trimmed, lp.created, true, true, [], none,
          .failed ("Failed to merge segments: " ++ e)⟩
      | .ok _ =>
        ⟨lp.trimmed, lp.created, true, true, lp.created ++ ["concat.txt"],
          some "compressed.mp4",
          .ok ("Created compressed.mp4 from " ++ toString rows.length ++ " segments")⟩

example :
    NormalizeCSVStep.execute [⟨"00:00:00", "00:00:10", "a"⟩, ⟨"00:00:12", "00:00:20", "b"⟩,
        ⟨"00:00:30", "00:00:35", "c"⟩] 3 =
      .ok [⟨"00:00:00", "00:00:20", "0001.mp4", "a; b"⟩,
        ⟨"00:00:30", "00:00:35", "0002.mp4", "c"⟩] := by
  norm_num +decide [NormalizeCSVStep.execute, mergeLoop, timestamp_to_seconds, splitOnColon,
    parsePyIntL, parsePyFloatL, parsePyFloatCore, digitsToNat, renumberFrom, fileName,
    natDigits, natDigitsCore, padLeftZeros, charVal_0, charVal_1, charVal_2, charVal_3,
    charVal_5, charVal_9, digitChar_0, digitChar_1, digitChar_2]

theorem mergeLoop_merge (t : ℚ) (prev seg : Segment) (rest : List Segment) (pe cs : ℚ)
    (h1 : timestamp_to_seconds prev.toTs = some pe)
    (h2 : timestamp_to_seconds seg.fromTs = some cs)
    (hle : cs - pe ≤ t) :
    mergeLoop t prev (seg :: rest) =
      mergeLoop t ⟨prev.fromTs, seg.toTs, prev.desc ++ "; " ++ seg.desc⟩ rest := by
  simp only [mergeLoop, h1, h2]
  rw [if_pos hle]

theorem mergeLoop_skip (t : ℚ) (prev seg : Segment) (rest : List Segment) (pe cs : ℚ)
    (h1 : timestamp_to_seconds prev.toTs = some pe)
    (h2 : timestamp_to_seconds seg.fromTs = some cs)
    (hgt : ¬cs - pe ≤ t) :
    mergeLoop t prev (seg :: rest) = (mergeLoop t seg rest).map (prev :: ·) := by
  simp only [mergeLoop, h1, h2]
  rw [if_neg hgt]
  cases h : mergeLoop t seg rest <;> simp [h]

theorem renumberFrom_map_rowToSegment :
    ∀ (k : Nat) (l : List Segment), (renumberFrom k l).map rowToSegment = l
  | _, [] => rfl
  | k, s :: rest => by
    simp [renumberFrom, rowToSegment, renumberFrom_map_rowToSegment (k + 1) rest]

theorem renumberFrom_length : ∀ (k : Nat) (l : List Segment),
    (renumberFrom k l).length = l.length
  | _, [] => rfl
  | k, s :: rest => by simp [renumberFrom, renumberFrom_length (k + 1) rest]

theorem renumberFrom_get_file :
    ∀ (l : List Segment) (k i : Nat) (h : i < (renumberFrom k l).length),
      ((renumberFrom k l).get ⟨i, h⟩).file = fileName (k + i)
  | [], k, i, h => by simp [renumberFrom] at h
  | s :: rest, k, 0, h => by simp [renumberFrom]
  | s :: rest, k, i + 1, h => by
    have := renumberFrom_get_file rest (k + 1) i (by
      simpa [renumberFrom] using Nat.lt_of_succ_lt_succ (by simpa [renumberFrom] using h))
    simpa [renumberFrom, Nat.add_assoc, Nat.add_comm 1 i] using this

/-- C1: normalization processes a non-empty table left to right seeded with
the first segment; a subsequent segment with gap `start - last end` at most
the threshold is merged into the last accumulated segment (its end becomes
the current segment's end, descriptions joined by `"; "`), otherwise it is
appended; the `i`-th output row (1-based) gets filename `{i:04d}.mp4`; the
empty table fails with `EmptyInput`; and on the spec's concrete scenario
with threshold 3 the first two segments merge and the third stays
separate. -/
theorem C1_normalize_algorithm :
    (∀ t : ℚ, NormalizeCSVStep.execute [] t = .error .EmptyInput) ∧
    (∀ (t : ℚ) (prev seg : Segment) (rest : List Segment) (pe cs : ℚ),
      timestamp_to_seconds prev.toTs = some pe →
      timestamp_to_seconds seg.fromTs = some cs →
      cs - pe ≤ t →
      mergeLoop t prev (seg :: rest) =
        mergeLoop t ⟨prev.fromTs, seg.toTs, prev.desc ++ "; " ++ seg.desc⟩ rest) ∧
    (∀ (t : ℚ) (prev seg : Segment) (rest : List Segment) (pe cs : ℚ),
      timestamp_to_seconds prev.toTs = some pe →
      timestamp_to_seconds seg.fromTs = some cs →
      ¬cs - pe ≤ t →
      mergeLoop t prev (seg :: rest) = (mergeLoop t seg rest).map (prev :: ·)) ∧
    (∀ (segs : List Segment) (t : ℚ) (out : List OutRow) (i : Nat)
      (h : i < out.length),
      NormalizeCSVStep.execute segs t = .ok out → (out.get ⟨i, h⟩).file = fileName (i + 1)) ∧
    fileName 1 = "0001.mp4" ∧
    NormalizeCSVStep.execute [⟨"00:00:00", "00:00:10", "a"⟩, ⟨"00:00:12", "00:00:20", "b"⟩,
        ⟨"00:00:30", "00:00:35", "c"⟩] 3 =
      .ok [⟨"00:00:00", "00:00:20", "0001.mp4", "a; b"⟩,
        ⟨"00:00:30", "00:00:35", "0002.mp4", "c"⟩] := by
  refine ⟨fun _ => rfl, mergeLoop_merge, mergeLoop_skip, ?_, rfl, ?_⟩
  · intro segs t out i h hex
    match segs, hex with
    | s0 :: rest, hex =>
      rw [NormalizeCSVStep.execute] at hex
      cases hm : mergeLoop t s0 rest with
      | none => rw [hm] at hex; exact absurd hex (by simp)
      | some merged =>
        rw [hm] at hex
        have hout : out = renumberFrom 1 merged := by
          simpa using hex.symm
        subst hout
        rw [renumberFrom_get_file, Nat.add_comm]
  · norm_num +decide [NormalizeCSVStep.execute, mergeLoop, timestamp_to_seconds, splitOnColon,
      parsePyIntL, parsePyFloatL, parsePyFloatCore, digitsToNat, renumberFrom, fileName,
      natDigits, natDigitsCore, padLeftZeros, charVal_0, charVal_1, charVal_2, charVal_3,
      charVal_5, charVal_9, digitChar_0, digitChar_1, digitChar_2]

/-- Witness for C1: the merge equation applied at the spec's concrete first
pair (gap 2 ≤ 3), and the filename equation applied at the single-segment
output. -/
theorem C1_normalize_algorithm_witness :
    mergeLoop 3 ⟨"00:00:00", "00:00:10", "a"⟩ [⟨"00:00:12", "00:00:20", "b"⟩] =
      mergeLoop 3 ⟨"00:00:00", "00:00:20", "a; b"⟩ [] :=
  C1_normalize_algorithm.2.1 3 ⟨"00:00:00", "00:00:10", "a"⟩ ⟨"00:00:12", "00:00:20", "b"⟩
    [] 10 12
    (by norm_num +decide [timestamp_to_seconds, splitOnColon, parsePyIntL, parsePyFloatL,
      parsePyFloatCore, digitsToNat, charVal_0, charVal_1])
    (by norm_num +decide [timestamp_to_seconds, splitOnColon, parsePyIntL, parsePyFloatL,
      parsePyFloatCore, digitsToNat, charVal_0, charVal_1, charVal_2])
    (by norm_num)

/-- C8: a merge sets the accumulated segment's end to the current segment's
end verbatim (never the maximum of the two), so on an overlapping input
the merged end moves earlier: merging (00:00:00,00:00:30) with
(00:00:05,00:00:10) at threshold 3 yields end 00:00:10, although 10 < 30
in seconds. -/
theorem C8_merge_end_verbatim :
    (∀ (t : ℚ) (prev seg : Segment) (rest : List Segment) (pe cs : ℚ),
      timestamp_to_seconds prev.toTs = some pe →
      timestamp_to_seconds seg.fromTs = some cs →
      cs - pe ≤ t →
      mergeLoop t prev (seg :: rest) =
        mergeLoop t ⟨prev.fromTs, seg.toTs, prev.desc ++ "; " ++ seg.desc⟩ rest) ∧
    NormalizeCSVStep.execute [⟨"00:00:00", "00:00:30", "a"⟩, ⟨"00:00:05", "00:00:10", "b"⟩] 3 =
      .ok [⟨"00:00:00", "00:00:10", "0001.mp4", "a; b"⟩] ∧
    timestamp_to_seconds "00:00:10" = some 10 ∧
    timestamp_to_seconds "00:00:30" = some 30 ∧ ((10 : ℚ) < 30) := by
  refine ⟨mergeLoop_merge, ?_, ?_, ?_, by norm_num⟩
  · norm_num +decide [NormalizeCSVStep.execute, mergeLoop, timestamp_to_seconds, splitOnColon,
      parsePyIntL, parsePyFloatL, parsePyFloatCore, digitsToNat, renumberFrom, fileName,
      natDigits, natDigitsCore, padLeftZeros, charVal_0, charVal_1, charVal_3,
      charVal_5, digitChar_0, digitChar_1]
  · norm_num +decide [timestamp_to_seconds, splitOnColon, parsePyIntL, parsePyFloatL,
      parsePyFloatCore, digitsToNat, charVal_0, charVal_1]
  · norm_num +decide [timestamp_to_seconds, splitOnColon, parsePyIntL, parsePyFloatL,
      parsePyFloatCore, digitsToNat, charVal_0, charVal_3]

/-- Witness for C8: the merge equation applied at the overlapping pair,
where the accumulated end 00:00:30 is replaced by the earlier 00:00:10. -/
theorem C8_merge_end_verbatim_witness :
    mergeLoop 3 ⟨"00:00:00", "00:00:30", "a"⟩ [⟨"00:00:05", "00:00:10", "b"⟩] =
      mergeLoop 3 ⟨"00:00:00", "00:00:10", "a; b"⟩ [] :=
  C8_merge_end_verbatim.1 3 ⟨"00:00:00", "00:00:30", "a"⟩ ⟨"00:00:05", "00:00:10", "b"⟩
    [] 30 5
    (by norm_num +decide [timestamp_to_seconds, splitOnColon, parsePyIntL, parsePyFloatL,
      parsePyFloatCore, digitsToNat, charVal_0, charVal_3])
    (by norm_num +decide [timestamp_to_seconds, splitOnColon, parsePyIntL, parsePyFloatL,
      parsePyFloatCore, digitsToNat, charVal_0, charVal_5])
    (by norm_num)

/-- C10: a CSV row with no `short_description` key is read with the empty
string as description (while `from_timestamp` and `to_timestamp` are
required: a row missing either is a `KeyError`), and a merge joins
descriptions with `"; "` unconditionally, even when a description is
empty. -/
theorem C10_missing_description :
    (∀ (row : List (String × String)) (f t : String),
      lookupField row "from_timestamp" = some f →
      lookupField row "to_timestamp" = some t →
      lookupField row "short_description" = none →
      readSegment row = some ⟨f, t, ""⟩) ∧
    (∀ row : List (String × String),
      lookupField row "from_timestamp" = none → readSegment row = none) ∧
    (∀ (row : List (String × String)) (f : String),
      lookupField row "from_timestamp" = some f →
      lookupField row "to_timestamp" = none → readSegment row = none) ∧
    (∀ (t : ℚ) (prev seg : Segment) (rest : List Segment) (pe cs : ℚ),
      timestamp_to_seconds prev.toTs = some pe →
      timestamp_to_seconds seg.fromTs = some cs →
      cs - pe ≤ t → prev.desc = "" →
      mergeLoop t prev (seg :: rest) =
        mergeLoop t ⟨prev.fromTs, seg.toTs, "; " ++ seg.desc⟩ rest) ∧
    NormalizeCSVStep.execute [⟨"00:00:00", "00:00:10", ""⟩, ⟨"00:00:11", "00:00:20", "b"⟩] 3 =
      .ok [⟨"00:00:00", "00:00:20", "0001.mp4", "; b"⟩] := by
  refine ⟨?_, ?_, ?_, ?_, ?_⟩
  · intro row f t hf ht hd
    simp [readSegment, hf, ht, hd]
  · intro row hf
    simp [readSegment, hf]
  · intro row f hf ht
    simp [readSegment, hf, ht]
  · intro t prev seg rest pe cs h1 h2 hle hdesc
    have := mergeLoop_merge t prev seg rest pe cs h1 h2 hle
    rwa [hdesc] at this
  · norm_num +decide [NormalizeCSVStep.execute, mergeLoop, timestamp_to_seconds, splitOnColon,
      parsePyIntL, parsePyFloatL, parsePyFloatCore, digitsToNat, renumberFrom, fileName,
      natDigits, natDigitsCore, padLeftZeros, charVal_0, charVal_1, charVal_2,
      digitChar_0, digitChar_1]

/-- Witness for C10: a row carrying only the two timestamp columns is read
with the empty description. -/
theorem C10_missing_description_witness :
    readSegment [("from_timestamp", "00:00:00"), ("to_timestamp", "00:00:10")] =
      some ⟨"00:00:00", "00:00:10", ""⟩ :=
  C10_missing_description.1 [("from_timestamp", "00:00:00"), ("to_timestamp", "00:00:10")]
    "00:00:00" "00:00:10" (by simp [lookupField]) (by simp [lookupField])
    (by simp [lookupField])

theorem mergeLoop_fields :
    ∀ (rest : List Segment) (t : ℚ) (prev : Segment) (out : List Segment),
      mergeLoop t prev rest = some out →
      ∀ x ∈ out,
        (x.fromTs = prev.fromTs ∨ ∃ s ∈ rest, x.fromTs = s.fromTs) ∧
        (x.toTs = prev.toTs ∨ ∃ s ∈ rest, x.toTs = s.toTs)
  | [], t, prev, out, h, x, hx => by
    rw [mergeLoop] at h
    obtain rfl : [prev] = out := by simpa using h
    obtain rfl : x = prev := by simpa using hx
    exact ⟨Or.inl rfl, Or.inl rfl⟩
  | seg :: rest, t, prev, out, h, x, hx => by
    rw [mergeLoop] at h
    cases h1 : timestamp_to_seconds prev.toTs with
    | none => simp [h1] at h
    | some pe =>
      simp only [h1] at h
      cases h2 : timestamp_to_seconds seg.fromTs with
      | none => simp [h2] at h
      | some cs =>
        simp only [h2] at h
        by_cases hle : cs - pe ≤ t
        · rw [if_pos hle] at h
          have := mergeLoop_fields rest t _ out h x hx
          refine ⟨?_, ?_⟩
          · rcases this.1 with heq | ⟨s, hs, heq⟩
            · exact Or.inl heq
            · exact Or.inr ⟨s, List.mem_cons_of_mem _ hs, heq⟩
          · rcases this.2 with heq | ⟨s, hs, heq⟩
            · exact Or.inr ⟨seg, List.mem_cons_self _ _, heq⟩
            · exact Or.inr ⟨s, List.mem_cons_of_mem _ hs, heq⟩
        · rw [if_neg hle] at h
          cases htail : mergeLoop t seg rest with
          | none => simp [htail] at h
          | some tail =>
            simp only [htail] at h
            obtain rfl : prev :: tail = out := by simpa using h
            rcases List.mem_cons.mp hx with rfl | hx
            · exact ⟨Or.inl rfl, Or.inl rfl⟩
            · have := mergeLoop_fields rest t seg tail htail x hx
              refine ⟨?_, ?_⟩
              · rcases this.1 with heq | ⟨s, hs, heq⟩
                · exact Or.inr ⟨seg, List.mem_cons_self _ _, heq⟩
                · exact Or.inr ⟨s, List.mem_cons_of_mem _ hs, heq⟩
              · rcases this.2 with heq | ⟨s, hs, heq⟩
                · exact Or.inr ⟨seg, List.mem_cons_self _ _, heq⟩
                · exact Or.inr ⟨s, List.mem_cons_of_mem _ hs, heq⟩

theorem renumberFrom_mem :
    ∀ (k : Nat) (l : List Segment) (r : OutRow), r ∈ renumberFrom k l →
      ∃ s ∈ l, r.fromTs = s.fromTs ∧ r.toTs = s.toTs ∧ r.desc = s.desc
  | k, [], r, hr => by simp [renumberFrom] at hr
  | k, s :: rest, r, hr => by
    rw [renumberFrom] at hr
    rcases List.mem_cons.mp hr with rfl | hr
    · exact ⟨s, List.mem_cons_self _ _, rfl, rfl, rfl⟩
    · obtain ⟨s', hs', h⟩ := renumberFrom_mem (k + 1) rest r hr
      exact ⟨s', List.mem_cons_of_mem _ hs', h⟩

/-- C9: normalization copies timestamp strings through unchanged: every
output row's `from_timestamp` is verbatim some input segment's
`from_timestamp`, and its `to_timestamp` verbatim some input segment's
`to_timestamp`; timestamps are never re-formatted. -/
theorem C9_timestamps_verbatim (segs : List Segment) (t : ℚ) (out : List OutRow)
    (h : NormalizeCSVStep.execute segs t = .ok out) :
    ∀ r ∈ out, (∃ s ∈ segs, r.fromTs = s.fromTs) ∧ (∃ s ∈ segs, r.toTs = s.toTs) := by
  intro r hr
  match segs, h with
  | s0 :: rest, h =>
    rw [NormalizeCSVStep.execute] at h
    cases hm : mergeLoop t s0 rest with
    | none => rw [hm] at h; exact absurd h (by simp)
    | some merged =>
      rw [hm] at h
      have hout : out = renumberFrom 1 merged := by simpa using h.symm
      subst hout
      obtain ⟨s, hs, hfrom, hto, _⟩ := renumberFrom_mem 1 merged r hr
      have := mergeLoop_fields rest t s0 merged hm s hs
      constructor
      · rcases this.1 with heq | ⟨s', hs', heq⟩
        · exact ⟨s0, List.mem_cons_self _ _, hfrom.trans heq⟩
        · exact ⟨s', List.mem_cons_of_mem _ hs', hfrom.trans heq⟩
      · rcases this.2 with heq | ⟨s', hs', heq⟩
        · exact ⟨s0, List.mem_cons_self _ _, hto.trans heq⟩
        · exact ⟨s', List.mem_cons_of_mem _ hs', hto.trans heq⟩

/-- Witness for C9: on a single-segment table the output row's timestamps
are verbatim fields of the input. -/
theorem C9_timestamps_verbatim_witness :
    (∃ s ∈ [(⟨"00:00:00", "00:00:10", "a"⟩ : Segment)],
      (⟨"00:00:00", "00:00:10", "0001.mp4", "a"⟩ : OutRow).fromTs = s.fromTs) ∧
    (∃ s ∈ [(⟨"00:00:00", "00:00:10", "a"⟩ : Segment)],
      (⟨"00:00:00", "00:00:10", "0001.mp4", "a"⟩ : OutRow).toTs = s.toTs) :=
  C9_timestamps_verbatim [⟨"00:00:00", "00:00:10", "a"⟩] 3
    [⟨"00:00:00", "00:00:10", "0001.mp4", "a"⟩] rfl
    ⟨"00:00:00", "00:00:10", "0001.mp4", "a"⟩ (List.mem_singleton.mpr rfl)

theorem cutLoop_fail :
    ∀ (rows : List CutRow) (n i : Nat) (e : String) (trim : Nat → Except String Unit),
      i < rows.length →
      (∀ j, j < i → trim (n + j) = .ok ()) →
      trim (n + i) = .error e →
      (∀ row ∈ rows.take (i + 1), (calc_duration row.fromTs row.toTs).isSome = true) →
      cutLoop trim rows n =
        ⟨List.range' n (i + 1), (rows.take i).map (fun r => r.file),
          some (.trimFail (n + i) e)⟩
  | [], _, i, _, _, hi, _, _, _ => absurd hi (by simp)
  | row :: rest, n, 0, e, trim, hi, hok, hfail, hdur => by
    rw [cutLoop]
    obtain ⟨d, hd⟩ := Option.isSome_iff_exists.mp (hdur row (by simp))
    rw [Nat.add_zero] at hfail
    simp [hd, hfail, List.range']
  | row :: rest, n, i + 1, e, trim, hi, hok, hfail, hdur => by
    rw [cutLoop]
    obtain ⟨d, hd⟩ := Option.isSome_iff_exists.mp (hdur row (by simp))
    have h0 : trim n = .ok () := by
      have := hok 0 (Nat.succ_pos i)
      rwa [Nat.add_zero] at this
    have ih := cutLoop_fail rest (n + 1) i e trim
      (by simpa using Nat.lt_of_succ_lt_succ hi)
      (fun j hj => by
        rw [show n + 1 + j = n + (j + 1) by omega]
        exact hok (j + 1) (Nat.succ_lt_succ hj))
      (by rw [show n + 1 + i = n + (i + 1) by omega]; exact hfail)
      (fun r hr => hdur r (by simp [hr]))
    simp [hd, h0, ih, List.range'_succ, show n + 1 + i = n + (i + 1) by omega]

theorem cutLoop_ok :
    ∀ (rows : List CutRow) (n : Nat) (trim : Nat → Except String Unit),
      (∀ row ∈ rows, (calc_duration row.fromTs row.toTs).isSome = true) →
      (∀ j, j < rows.length → trim (n + j) = .ok ()) →
      cutLoop trim rows n = ⟨List.range' n rows.length, rows.map (fun r => r.file), none⟩
  | [], n, trim, _, _ => by simp [cutLoop, List.range']
  | row :: rest, n, trim, hdur, htrim => by
    rw [cutLoop]
    obtain ⟨d, hd⟩ := Option.isSome_iff_exists.mp (hdur row (by simp))
    have h0 : trim n = .ok () := by
      have := htrim 0 (by simp)
      rwa [Nat.add_zero] at this
    have ih := cutLoop_ok rest (n + 1) trim (fun r hr => hdur r (by simp [hr]))
      (fun j hj => by
        rw [show n + 1 + j = n + (j + 1) by omega]
        exact htrim (j + 1) (by simpa using Nat.succ_lt_succ hj))
    simp [hd, h0, ih, List.range'_succ]

/-- C2: if the trim collaborator fails at 0-based index `i`, the cutter
stops there and fails with the message carrying the failing segment (the
source renders it 1-based as `i+1`) and the underlying stderr: segments
after `i` are never trimmed, the manifest is not written, the merge never
runs, and no already-produced chunk file is deleted. -/
theorem C2_cut_abort_on_trim_failure (rows : List CutRow)
    (trim : Nat → Except String Unit) (merge : Except String Unit) (i : Nat) (e : String)
    (hi : i < rows.length)
    (hok : ∀ j, j < i → trim j = .ok ())
    (hfail : trim i = .error e)
    (hdur : ∀ row ∈ rows.take (i + 1), (calc_duration row.fromTs row.toTs).isSome = true) :
    CutVideoStep.execute true true rows trim merge =
      ⟨List.range' 0 (i + 1), (rows.take i).map (fun r => r.file), false, false, [], none,
        .failed ("Failed to cut segment " ++ toString (i + 1) ++ ": " ++ e)⟩ := by
  have hlp := cutLoop_fail rows 0 i e trim hi
    (fun j hj => by rw [Nat.zero_add]; exact hok j hj)
    (by rw [Nat.zero_add]; exact hfail) hdur
  rw [Nat.zero_add] at hlp
  match rows, hi with
  | row :: rest, _ =>
    rw [CutVideoStep.execute]
    simp [hlp]

/-- Witness for C2: three segments, trim fails at index 1: only indices 0
and 1 were attempted, only chunk `0001.mp4` exists, no merge, no manifest,
nothing deleted. -/
theorem C2_cut_abort_on_trim_failure_witness :
    CutVideoStep.execute true true
        [⟨"00:00:00", "00:00:01", "0001.mp4"⟩, ⟨"00:00:00", "00:00:01", "0002.mp4"⟩,
          ⟨"00:00:00", "00:00:01", "0003.mp4"⟩]
        (fun j => if j = 1 then .error "boom" else .ok ()) (.ok ()) =
      ⟨[0, 1], ["0001.mp4"], false, false, [], none,
        .failed "Failed to cut segment 2: boom"⟩ :=
  C2_cut_abort_on_trim_failure
    [⟨"00:00:00", "00:00:01", "0001.mp4"⟩, ⟨"00:00:00", "00:00:01", "0002.mp4"⟩,
      ⟨"00:00:00", "00:00:01", "0003.mp4"⟩]
    (fun j => if j = 1 then .error "boom" else .ok ()) (.ok ()) 1 "boom"
    (by norm_num)
    (fun j hj => by
      obtain rfl : j = 0 := by omega
      rfl)
    rfl
    (by
      intro row hr
      simp only [List.take] at hr
      fin_cases hr
      all_goals
        norm_num +decide [calc_duration, timestamp_to_seconds, splitOnColon, parsePyIntL,
          parsePyFloatL, parsePyFloatCore, digitsToNat, charVal_0, charVal_1])

/-- C7: when every trim and the merge succeed, the cutter trims every
segment, writes the manifest, runs the merge, deletes every chunk file and
the manifest, and produces exactly the final output `compressed.mp4`
(derived from source `video.mp4`), reporting it in the result. -/
theorem C7_cut_success_cleanup (rows : List CutRow) (trim : Nat → Except String Unit)
    (hne : rows ≠ [])
    (hdur : ∀ row ∈ rows, (calc_duration row.fromTs row.toTs).isSome = true)
    (htrim : ∀ j, j < rows.length → trim j = .ok ()) :
    CutVideoStep.execute true true rows trim (.ok ()) =
      ⟨List.range' 0 rows.length, rows.map (fun r => r.file), true, true,
        rows.map (fun r => r.file) ++ ["concat.txt"], some "compressed.mp4",
        .ok ("Created compressed.mp4 from " ++ toString rows.length ++ " segments")⟩ := by
  have hlp := cutLoop_ok rows 0 trim hdur
    (fun j hj => by rw [Nat.zero_add]; exact htrim j hj)
  match rows, hne with
  | row :: rest, _ =>
    rw [CutVideoStep.execute]
    simp [hlp]

/-- Witness for C7: two segments, everything succeeds: both chunks and the
manifest are deleted and `compressed.mp4` is produced. -/
theorem C7_cut_success_cleanup_witness :
    CutVideoStep.execute true true
        [⟨"00:00:00", "00:00:01", "0001.mp4"⟩, ⟨"00:00:00", "00:00:01", "0002.mp4"⟩]
        (fun _ => .ok ()) (.ok ()) =
      ⟨[0, 1], ["0001.mp4", "0002.mp4"], true, true,
        ["0001.mp4", "0002.mp4", "concat.txt"], some "compressed.mp4",
        .ok "Created compressed.mp4 from 2 segments"⟩ :=
  C7_cut_success_cleanup
    [⟨"00:00:00", "00:00:01", "0001.mp4"⟩, ⟨"00:00:00", "00:00:01", "0002.mp4"⟩]
    (fun _ => .ok ()) (by simp)
    (by
      intro row hr
      fin_cases hr
      all_goals
        norm_num +decide [calc_duration, timestamp_to_seconds, splitOnColon, parsePyIntL,
          parsePyFloatL, parsePyFloatCore, digitsToNat, charVal_0, charVal_1])
    (fun _ _ => rfl)

/-- Between every two consecutive entries the gap (next start minus
previous end) parses and exceeds the threshold: the shape of a merge-loop
output, under which a second pass merges nothing. -/
def Chain2 (t : ℚ) : List Segment → Prop
  | a :: b :: rest =>
    (∃ ta fb, timestamp_to_seconds a.toTs = some ta ∧
      timestamp_to_seconds b.fromTs = some fb ∧ ¬fb - ta ≤ t) ∧ Chain2 t (b :: rest)
  | _ => True

theorem mergeLoop_spec :
    ∀ (rest : List Segment) (t : ℚ) (prev : Segment) (out : List Segment),
      mergeLoop t prev rest = some out →
      (∃ hd tl, out = hd :: tl ∧ hd.fromTs = prev.fromTs) ∧ Chain2 t out
  | [], t, prev, out, h => by
    rw [mergeLoop] at h
    obtain rfl : [prev] = out := by simpa using h
    exact ⟨⟨prev, [], rfl, rfl⟩, trivial⟩
  | seg :: rest, t, prev, out, h => by
    rw [mergeLoop] at h
    cases h1 : timestamp_to_seconds prev.toTs with
    | none => simp [h1] at h
    | some pe =>
      simp only [h1] at h
      cases h2 : timestamp_to_seconds seg.fromTs with
      | none => simp [h2] at h
      | some cs =>
        simp only [h2] at h
        by_cases hle : cs - pe ≤ t
        · rw [if_pos hle] at h
          obtain ⟨⟨hd, tl, rfl, hfrom⟩, hchain⟩ := mergeLoop_spec rest t _ out h
          exact ⟨⟨hd, tl, rfl, hfrom⟩, hchain⟩
        · rw [if_neg hle] at h
          cases htail : mergeLoop t seg rest with
          | none => simp [htail] at h
          | some tail =>
            simp only [htail] at h
            obtain rfl : prev :: tail = out := by simpa using h
            obtain ⟨⟨hd, tl, rfl, hfrom⟩, hchain⟩ := mergeLoop_spec rest t seg tail htail
            refine ⟨⟨prev, hd :: tl, rfl, rfl⟩, ?_, hchain⟩
            exact ⟨pe, cs, h1, by rw [hfrom]; exact h2, hle⟩

theorem mergeLoop_id :
    ∀ (l : List Segment) (t : ℚ) (a : Segment),
      Chain2 t (a :: l) → mergeLoop t a l = some (a :: l)
  | [], t, a, _ => by rw [mergeLoop]
  | b :: l, t, a, hc => by
    obtain ⟨⟨ta, fb, hta, hfb, hgt⟩, hc'⟩ := hc
    rw [mergeLoop]
    simp only [hta, hfb]
    rw [if_neg hgt]
    simp only [mergeLoop_id l t b hc']

/-- C6: normalization is idempotent: whenever it succeeds, running it again
with the same threshold on its own output (re-read the way the source
re-reads the CSV, ignoring the `file` column) returns the very same
output: after one pass every remaining gap exceeds the threshold, so
nothing merges and the filenames are re-assigned identically. -/
theorem C6_normalize_idempotent (segs : List Segment) (t : ℚ) (out : List OutRow)
    (h : NormalizeCSVStep.execute segs t = .ok out) :
    NormalizeCSVStep.execute (out.map rowToSegment) t = .ok out := by
  match segs, h with
  | s0 :: rest, h =>
    rw [NormalizeCSVStep.execute] at h
    cases hm : mergeLoop t s0 rest with
    | none => rw [hm] at h; exact absurd h (by simp)
    | some merged =>
      rw [hm] at h
      have hout : out = renumberFrom 1 merged := by simpa using h.symm
      subst hout
      rw [renumberFrom_map_rowToSegment]
      obtain ⟨⟨hd, tl, rfl, _⟩, hchain⟩ := mergeLoop_spec rest t s0 merged hm
      rw [NormalizeCSVStep.execute]
      simp only [mergeLoop_id tl t hd hchain]

/-- Witness for C6: re-normalizing the single-row output reproduces it. -/
theorem C6_normalize_idempotent_witness :
    NormalizeCSVStep.execute
        (([⟨"00:00:00", "00:00:10", "0001.mp4", "a"⟩] : List OutRow).map rowToSegment) 3 =
      .ok [⟨"00:00:00", "00:00:10", "0001.mp4", "a"⟩] :=
  C6_normalize_idempotent [⟨"00:00:00", "00:00:10", "a"⟩] 3
    [⟨"00:00:00", "00:00:10", "0001.mp4", "a"⟩] rfl

/-- Counterexample to C4 as stated: `"1:2:3:4"` splits into four fields,
which the claim says must fail, yet `timestamp_to_seconds` succeeds,
returning `1*3600 + 2*60 + 3` from the first three fields. -/
theorem C4_counterexample :
    (splitOnColon ("1:2:3:4".toList)).length = 4 ∧
    timestamp_to_seconds "1:2:3:4" ≠ none ∧
    timestamp_to_seconds "1:2:3:4" = some 3723 := by
  have heval : timestamp_to_seconds "1:2:3:4" = some 3723 := by
    norm_num +decide [timestamp_to_seconds, splitOnColon, parsePyIntL, parsePyFloatL,
      parsePyFloatCore, digitsToNat, charVal_1, charVal_2, charVal_3, charVal_4]
  exact ⟨by decide, by simp [heval], heval⟩

/-- C4 amended: parsing fails (raises, modelled `none`) when the split
yields fewer than three fields or when one of the FIRST THREE fields is
non-numeric; with three or more fields whose first three are numeric it
returns `h*3600 + m*60 + s` computed from the first three fields, ignoring
any extra fields. -/
theorem C4_parse_field_validation :
    (∀ ts : String, (splitOnColon ts.toList).length < 3 → timestamp_to_seconds ts = none) ∧
    (∀ (ts : String) (p0 p1 p2 : List Char) (rest : List (List Char)),
      splitOnColon ts.toList = p0 :: p1 :: p2 :: rest →
      (parsePyIntL p0 = none → timestamp_to_seconds ts = none) ∧
      (∀ h : ℤ, parsePyIntL p0 = some h → parsePyIntL p1 = none →
        timestamp_to_seconds ts = none) ∧
      (∀ (h m : ℤ), parsePyIntL p0 = some h → parsePyIntL p1 = some m →
        parsePyFloatL p2 = none → timestamp_to_seconds ts = none) ∧
      (∀ (h m : ℤ) (s : ℚ), parsePyIntL p0 = some h → parsePyIntL p1 = some m →
        parsePyFloatL p2 = some s →
        timestamp_to_seconds ts = some ((h : ℚ) * 3600 + (m : ℚ) * 60 + s))) := by
  constructor
  · intro ts hlen
    rw [timestamp_to_seconds]
    rcases hsp : splitOnColon ts.toList with _ | ⟨p0, _ | ⟨p1, _ | ⟨p2, rest⟩⟩⟩
    · rfl
    · rfl
    · rfl
    · rw [hsp] at hlen
      simp at hlen
      omega
  · intro ts p0 p1 p2 rest hsp
    have hsp' : splitOnColon ts.data = p0 :: p1 :: p2 :: rest := hsp
    refine ⟨?_, ?_, ?_, ?_⟩
    · intro h0
      rw [timestamp_to_seconds]
      simp [hsp', h0]
    · intro h h0 h1
      rw [timestamp_to_seconds]
      simp [hsp', h0, h1]
    · intro h m h0 h1 h2
      rw [timestamp_to_seconds]
      simp [hsp', h0, h1, h2]
    · intro h m s h0 h1 h2
      rw [timestamp_to_seconds]
      simp [hsp', h0, h1, h2]

/-- Witness for C4: the positive branch applied at `"1:2:3:4"`, whose
fourth field is ignored. -/
theorem C4_parse_field_validation_witness :
    timestamp_to_seconds "1:2:3:4" =
      some (((1 : ℤ) : ℚ) * 3600 + ((2 : ℤ) : ℚ) * 60 + 3) :=
  ((C4_parse_field_validation.2 "1:2:3:4" ['1'] ['2'] ['3'] [['4']]
    (by decide)).2.2.2) 1 2 3 (by decide) (by decide)
    (by
      norm_num +decide [parsePyFloatL, parsePyFloatCore, digitsToNat, charVal_3])

theorem charVal_digitChar (d : Nat) (hd : d < 10) : charVal (digitChar d) = d := by
  interval_cases d <;> rfl

theorem isDigit_digitChar (d : Nat) (hd : d < 10) : (digitChar d).isDigit = true := by
  interval_cases d <;> rfl

theorem isDigit_ne_colon (c : Char) (h : c.isDigit = true) : c ≠ ':' := by
  rintro rfl
  exact absurd h (by decide)

theorem isDigit_ne_dot (c : Char) (h : c.isDigit = true) : c ≠ '.' := by
  rintro rfl
  exact absurd h (by decide)

theorem isDigit_ne_plus (c : Char) (h : c.isDigit = true) : c ≠ '+' := by
  rintro rfl
  exact absurd h (by decide)

theorem isDigit_ne_minus (c : Char) (h : c.isDigit = true) : c ≠ '-' := by
  rintro rfl
  exact absurd h (by decide)

theorem digitsToNat_foldl :
    ∀ (l : List Char) (a : Nat),
      l.foldl (fun a c => 10 * a + charVal c) a = a * 10 ^ l.length + digitsToNat l
  | [], a => by simp [digitsToNat]
  | c :: l, a => by
    have h1 := digitsToNat_foldl l (10 * a + charVal c)
    have h2 := digitsToNat_foldl l (10 * 0 + charVal c)
    simp only [List.foldl_cons] at *
    rw [h1, show digitsToNat (c :: l) = (10 * 0 + charVal c) * 10 ^ l.length + digitsToNat l
      from h2]
    simp only [List.length_cons, pow_succ]
    ring

theorem digitsToNat_append (l1 l2 : List Char) :
    digitsToNat (l1 ++ l2) = digitsToNat l1 * 10 ^ l2.length + digitsToNat l2 := by
  unfold digitsToNat
  rw [List.foldl_append]
  exact digitsToNat_foldl l2 _

theorem digitsToNat_single (c : Char) : digitsToNat [c] = charVal c := by
  simp [digitsToNat]

theorem digitsToNat_replicate_zero : ∀ k : Nat, digitsToNat (List.replicate k '0') = 0
  | 0 => rfl
  | k + 1 => by
    rw [List.replicate_succ, show digitsToNat ('0' :: List.replicate k '0') =
      digitsToNat ([ '0' ] ++ List.replicate k '0') from rfl, digitsToNat_append,
      digitsToNat_replicate_zero k, digitsToNat_single, charVal_0]
    ring

theorem digitsToNat_padLeftZeros (k : Nat) (l : List Char) :
    digitsToNat (padLeftZeros k l) = digitsToNat l := by
  unfold padLeftZeros
  rw [digitsToNat_append, digitsToNat_replicate_zero]
  ring

theorem natDigitsCore_spec :
    ∀ fuel n : Nat, n < fuel →
      digitsToNat (natDigitsCore fuel n) = n ∧
      (∀ c ∈ natDigitsCore fuel n, c.isDigit = true) ∧
      natDigitsCore fuel n ≠ []
  | 0, n, h => absurd h (Nat.not_lt_zero n)
  | fuel + 1, n, h => by
    rw [natDigitsCore]
    by_cases h10 : n < 10
    · rw [if_pos h10]
      refine ⟨by rw [digitsToNat_single, charVal_digitChar n h10], ?_, by simp⟩
      intro c hc
      obtain rfl : c = digitChar n := by simpa using hc
      exact isDigit_digitChar n h10
    · rw [if_neg h10]
      have hlt : n / 10 < n := Nat.div_lt_self (by omega) (by omega)
      obtain ⟨ih1, ih2, _⟩ := natDigitsCore_spec fuel (n / 10) (by omega)
      have hmod : n % 10 < 10 := Nat.mod_lt n (by omega)
      refine ⟨?_, ?_, by simp⟩
      · rw [digitsToNat_append, ih1, digitsToNat_single, charVal_digitChar _ hmod]
        have := Nat.div_add_mod n 10
        simp only [List.length_cons, List.length_nil, pow_one]
        omega
      · intro c hc
        rcases List.mem_append.mp hc with hc | hc
        · exact ih2 c hc
        · obtain rfl : c = digitChar (n % 10) := by simpa using hc
          exact isDigit_digitChar _ hmod

theorem digitsToNat_natDigits (n : Nat) : digitsToNat (natDigits n) = n :=
  (natDigitsCore_spec (n + 1) n (Nat.lt_succ_self n)).1

theorem natDigits_all_isDigit (n : Nat) : ∀ c ∈ natDigits n, c.isDigit = true :=
  (natDigitsCore_spec (n + 1) n (Nat.lt_succ_self n)).2.1

theorem natDigits_ne_nil (n : Nat) : natDigits n ≠ [] :=
  (natDigitsCore_spec (n + 1) n (Nat.lt_succ_self n)).2.2

theorem natDigitsCore_length :
    ∀ fuel n k : Nat, n < fuel → n < 10 ^ k → 0 < k → (natDigitsCore fuel n).length ≤ k
  | 0, n, _, h, _, _ => absurd h (Nat.not_lt_zero n)
  | fuel + 1, n, k, h, hnk, hk => by
    rw [natDigitsCore]
    by_cases h10 : n < 10
    · rw [if_pos h10]
      simpa using hk
    · rw [if_neg h10]
      have hk1 : k ≠ 1 := by
        rintro rfl
        rw [pow_one] at hnk
        exact h10 hnk
      have hlt : n / 10 < n := Nat.div_lt_self (by omega) (by omega)
      have hdiv : n / 10 < 10 ^ (k - 1) := by
        rw [Nat.div_lt_iff_lt_mul (by omega : 0 < 10)]
        calc n < 10 ^ k := hnk
          _ = 10 ^ (k - 1) * 10 := by
            rw [← pow_succ]
            congr 1
            omega
      have ih := natDigitsCore_length fuel (n / 10) (k - 1) (by omega) hdiv (by omega)
      simp only [List.length_append, List.length_cons, List.length_nil]
      omega

theorem natDigits_length_le (n k : Nat) (hnk : n < 10 ^ k) (hk : 0 < k) :
    (natDigits n).length ≤ k :=
  natDigitsCore_length (n + 1) n k (Nat.lt_succ_self n) hnk hk

theorem padLeftZeros_length (k : Nat) (l : List Char) (h : l.length ≤ k) :
    (padLeftZeros k l).length = k := by
  simp only [padLeftZeros, List.length_append, List.length_replicate]
  omega

theorem padLeftZeros_length_ge (k : Nat) (l : List Char) :
    k ≤ (padLeftZeros k l).length := by
  simp only [padLeftZeros, List.length_append, List.length_replicate]
  omega

theorem padLeftZeros_all_isDigit (k : Nat) (l : List Char)
    (h : ∀ c ∈ l, c.isDigit = true) : ∀ c ∈ padLeftZeros k l, c.isDigit = true := by
  intro c hc
  rcases List.mem_append.mp hc with hc | hc
  · obtain rfl : c = '0' := List.eq_of_mem_replicate hc
    decide
  · exact h c hc

theorem padLeftZeros_ne_nil (k : Nat) (l : List Char) (h : l ≠ []) :
    padLeftZeros k l ≠ [] := by
  simp [padLeftZeros, h]

theorem parsePyIntL_digits :
    ∀ l : List Char, l ≠ [] → (∀ c ∈ l, c.isDigit = true) →
      parsePyIntL l = some (digitsToNat l : Int)
  | c :: rest, _, hd => by
    rw [parsePyIntL]
    have hc : c.isDigit = true := hd c (by simp)
    rw [if_neg (isDigit_ne_plus c hc), if_neg (isDigit_ne_minus c hc),
      if_pos (List.all_eq_true.mpr (fun x hx => hd x hx))]

theorem takeWhile_append_stop (p : Char → Bool) :
    ∀ (l1 : List Char) (c : Char) (l2 : List Char), (∀ x ∈ l1, p x = true) → p c = false →
      ((l1 ++ c :: l2).takeWhile p = l1 ∧ (l1 ++ c :: l2).dropWhile p = c :: l2)
  | [], c, l2, _, hc => by
    constructor <;> simp [List.takeWhile_cons, List.dropWhile_cons, hc]
  | a :: l1, c, l2, h1, hc => by
    have ha : p a = true := h1 a (by simp)
    obtain ⟨ht, hd⟩ := takeWhile_append_stop p l1 c l2 (fun x hx => h1 x (by simp [hx])) hc
    constructor <;> simp [List.takeWhile_cons, List.dropWhile_cons, ha, ht, hd]

theorem parsePyFloatCore_digits_dot (W F : List Char)
    (hWne : W ≠ []) (hW : ∀ c ∈ W, c.isDigit = true) (hF : ∀ c ∈ F, c.isDigit = true) :
    parsePyFloatCore (W ++ '.' :: F) =
      some ((digitsToNat W : ℚ) + (digitsToNat F : ℚ) / 10 ^ F.length) := by
  obtain ⟨ht, hd⟩ := takeWhile_append_stop Char.isDigit W '.' F hW (by decide)
  rw [parsePyFloatCore]
  simp only [ht, hd]
  rw [if_pos ⟨trivial, List.all_eq_true.mpr (fun x hx => hF x hx), Or.inl hWne⟩]

theorem parsePyFloatL_digits_dot :
    ∀ (W F : List Char), W ≠ [] → (∀ c ∈ W, c.isDigit = true) →
      (∀ c ∈ F, c.isDigit = true) →
      parsePyFloatL (W ++ '.' :: F) =
        some ((digitsToNat W : ℚ) + (digitsToNat F : ℚ) / 10 ^ F.length)
  | c :: W, F, _, hW, hF => by
    have hc : c.isDigit = true := hW c (by simp)
    rw [List.cons_append, parsePyFloatL]
    rw [if_neg (isDigit_ne_plus c hc), if_neg (isDigit_ne_minus c hc), ← List.cons_append]
    exact parsePyFloatCore_digits_dot (c :: W) F (by simp) hW hF

theorem splitOnColon_append :
    ∀ (a b : List Char), (∀ c ∈ a, c ≠ ':') →
      splitOnColon (a ++ ':' :: b) = a :: splitOnColon b
  | [], b, _ => by simp [splitOnColon]
  | c :: a, b, h => by
    have hc : c ≠ ':' := h c (by simp)
    have ih := splitOnColon_append a b (fun x hx => h x (by simp [hx]))
    rw [List.cons_append, splitOnColon, if_neg hc, ih]

theorem splitOnColon_no_colon :
    ∀ a : List Char, (∀ c ∈ a, c ≠ ':') → splitOnColon a = [a]
  | [], _ => rfl
  | c :: a, h => by
    have hc : c ≠ ':' := h c (by simp)
    have ih := splitOnColon_no_colon a (fun x hx => h x (by simp [hx]))
    rw [splitOnColon, if_neg hc, ih]

theorem roundHalfEven_close (q : ℚ) : |(roundHalfEven q : ℚ) - q| ≤ 1 / 2 := by
  have h0 : 0 ≤ Int.fract q := Int.fract_nonneg q
  have h1 : Int.fract q < 1 := Int.fract_lt_one q
  have hfl : (⌊q⌋ : ℚ) = q - Int.fract q := by
    rw [Int.fract]
    ring
  rw [roundHalfEven]
  split_ifs with hc1 hc2 hc3
  · rw [hfl, abs_le]
    constructor <;> linarith
  · push_cast
    rw [hfl, abs_le]
    constructor <;> linarith
  · have hfr : Int.fract q = 1 / 2 := by linarith
    rw [hfl, hfr, abs_le]
    constructor <;> linarith
  · have hfr : Int.fract q = 1 / 2 := by linarith
    push_cast
    rw [hfl, hfr, abs_le]
    constructor <;> linarith

theorem roundHalfEven_nonneg (q : ℚ) (h : 0 ≤ q) : 0 ≤ roundHalfEven q := by
  have hfl : (0 : ℤ) ≤ ⌊q⌋ := Int.floor_nonneg.mpr h
  rw [roundHalfEven]
  split_ifs <;> omega

theorem roundHalfEven_le (q : ℚ) (b : ℤ) (h : q < b) : roundHalfEven q ≤ b := by
  have hfl : ⌊q⌋ ≤ b - 1 := by
    have : ⌊q⌋ < b := Int.floor_lt.mpr (by exact_mod_cast h)
    omega
  rw [roundHalfEven]
  split_ifs <;> omega

theorem pyMod_nonneg (a b : ℚ) (hb : 0 < b) : 0 ≤ pyMod a b := by
  rw [pyMod]
  have h1 : (⌊a / b⌋ : ℚ) ≤ a / b := Int.floor_le (a / b)
  have h2 : b * (⌊a / b⌋ : ℚ) ≤ b * (a / b) := by
    exact mul_le_mul_of_nonneg_left h1 (le_of_lt hb)
  rw [mul_div_cancel₀ a (ne_of_gt hb)] at h2
  linarith

theorem pyMod_lt (a b : ℚ) (hb : 0 < b) : pyMod a b < b := by
  rw [pyMod]
  have h1 : a / b < (⌊a / b⌋ : ℚ) + 1 := Int.lt_floor_add_one (a / b)
  have h2 : a < b * ((⌊a / b⌋ : ℚ) + 1) := by
    rw [show b * ((⌊a / b⌋ : ℚ) + 1) = (⌊a / b⌋ + 1) * b by ring]
    exact (div_lt_iff₀ hb).mp h1
  linarith [h2]

theorem pyMod_decomp (x : ℚ) :
    3600 * (⌊x / 3600⌋ : ℚ) + 60 * (⌊pyMod x 3600 / 60⌋ : ℚ) + pyMod x 60 = x := by
  have h1 : pyMod x 3600 / 60 = x / 60 - 60 * (⌊x / 3600⌋ : ℚ) := by
    rw [pyMod]
    ring
  have h2 : ⌊pyMod x 3600 / 60⌋ = ⌊x / 60⌋ - 60 * ⌊x / 3600⌋ := by
    rw [h1, show x / 60 - 60 * (⌊x / 3600⌋ : ℚ) = x / 60 - ((60 * ⌊x / 3600⌋ : ℤ) : ℚ) by
      push_cast; ring, Int.floor_sub_int]
  rw [h2, pyMod]
  push_cast
  ring

theorem format_seconds_def (x : ℚ) :
    (format_seconds x).toList =
      formatInt02 ⌊x / 3600⌋ ++ ':' :: (formatInt02 ⌊pyMod x 3600 / 60⌋ ++ ':' ::
        formatFixed3 (pyMod x 60)) := rfl

theorem formatFixed3_def (q : ℚ) :
    formatFixed3 q = padLeftZeros 2 (natDigits ((roundHalfEven (q * 1000)).toNat / 1000)) ++
      '.' :: [digitChar ((roundHalfEven (q * 1000)).toNat % 1000 / 100),
        digitChar ((roundHalfEven (q * 1000)).toNat % 1000 / 10 % 10),
        digitChar ((roundHalfEven (q * 1000)).toNat % 10)] := rfl

theorem formatInt02_nonneg (z : ℤ) (hz : 0 ≤ z) :
    formatInt02 z = padLeftZeros 2 (natDigits z.toNat) := by
  rw [formatInt02, if_neg (by omega)]

theorem timestamp_parse_fields (A B W F : List Char)
    (hAne : A ≠ []) (hBne : B ≠ []) (hWne : W ≠ [])
    (hA : ∀ c ∈ A, c.isDigit = true) (hB : ∀ c ∈ B, c.isDigit = true)
    (hW : ∀ c ∈ W, c.isDigit = true) (hF : ∀ c ∈ F, c.isDigit = true) :
    timestamp_to_seconds (String.mk (A ++ ':' :: (B ++ ':' :: (W ++ '.' :: F)))) =
      some ((digitsToNat A : ℚ) * 3600 + (digitsToNat B : ℚ) * 60 +
        ((digitsToNat W : ℚ) + (digitsToNat F : ℚ) / 10 ^ F.length)) := by
  have hsplit : splitOnColon (A ++ ':' :: (B ++ ':' :: (W ++ '.' :: F))) =
      [A, B, W ++ '.' :: F] := by
    rw [splitOnColon_append _ _ (fun c hc => isDigit_ne_colon c (hA c hc)),
      splitOnColon_append _ _ (fun c hc => isDigit_ne_colon c (hB c hc)),
      splitOnColon_no_colon _ ?_]
    intro c hc
    rcases List.mem_append.mp hc with h | h
    · exact isDigit_ne_colon c (hW c h)
    · rcases List.mem_cons.mp h with rfl | h
      · decide
      · exact isDigit_ne_colon c (hF c h)
  have hsplit' : splitOnColon (String.mk (A ++ ':' :: (B ++ ':' :: (W ++ '.' :: F)))).data =
      [A, B, W ++ '.' :: F] := hsplit
  have hsplitT : splitOnColon (String.mk (A ++ ':' :: (B ++ ':' :: (W ++ '.' :: F)))).toList =
      [A, B, W ++ '.' :: F] := hsplit
  rw [timestamp_to_seconds]
  simp only [String.toList, hsplit', hsplitT, parsePyIntL_digits A hAne hA,
    parsePyIntL_digits B hBne hB, parsePyFloatL_digits_dot W F hWne hW hF]
  push_cast
  ring_nf

theorem format_seconds_spec (x : ℚ) (hx : 0 ≤ x) :
    ∃ (A B W F : List Char) (y : ℚ),
      (format_seconds x).toList = A ++ ':' :: (B ++ ':' :: (W ++ '.' :: F)) ∧
      (∀ c ∈ A, c.isDigit = true) ∧ (∀ c ∈ B, c.isDigit = true) ∧
      (∀ c ∈ W, c.isDigit = true) ∧ (∀ c ∈ F, c.isDigit = true) ∧
      2 ≤ A.length ∧ B.length = 2 ∧ W.length = 2 ∧ F.length = 3 ∧
      timestamp_to_seconds (format_seconds x) = some y ∧ |y - x| ≤ 1 / 1000 := by
  have hH0 : (0 : ℤ) ≤ ⌊x / 3600⌋ := Int.floor_nonneg.mpr (by positivity)
  have hm3600 : 0 ≤ pyMod x 3600 := pyMod_nonneg x 3600 (by norm_num)
  have hm3600lt : pyMod x 3600 < 3600 := pyMod_lt x 3600 (by norm_num)
  have hM0 : (0 : ℤ) ≤ ⌊pyMod x 3600 / 60⌋ := Int.floor_nonneg.mpr (by positivity)
  have hMlt : ⌊pyMod x 3600 / 60⌋ < 60 := by
    apply Int.floor_lt.mpr
    push_cast
    rw [div_lt_iff₀ (by norm_num : (0 : ℚ) < 60)]
    linarith
  have hs0 : 0 ≤ pyMod x 60 := pyMod_nonneg x 60 (by norm_num)
  have hslt : pyMod x 60 < 60 := pyMod_lt x 60 (by norm_num)
  have hn0 : 0 ≤ roundHalfEven (pyMod x 60 * 1000) :=
    roundHalfEven_nonneg _ (by positivity)
  have hnle : roundHalfEven (pyMod x 60 * 1000) ≤ 60000 :=
    roundHalfEven_le _ 60000 (by push_cast; linarith)
  -- abbreviations
  obtain ⟨H, hH⟩ : ∃ H, ⌊x / 3600⌋ = H := ⟨_, rfl⟩
  obtain ⟨M, hM⟩ : ∃ M, ⌊pyMod x 3600 / 60⌋ = M := ⟨_, rfl⟩
  obtain ⟨nn, hnn⟩ : ∃ nn, (roundHalfEven (pyMod x 60 * 1000)).toNat = nn := ⟨_, rfl⟩
  rw [hH] at hH0
  rw [hM] at hM0 hMlt
  have hnnle : nn ≤ 60000 := by omega
  have hMnat : M.toNat < 100 := by omega
  have hwhole : nn / 1000 < 100 := by omega
  -- the four fields
  have hten2 : (100 : ℕ) = 10 ^ 2 := by norm_num
  refine ⟨padLeftZeros 2 (natDigits H.toNat), padLeftZeros 2 (natDigits M.toNat),
    padLeftZeros 2 (natDigits (nn / 1000)),
    [digitChar (nn % 1000 / 100), digitChar (nn % 1000 / 10 % 10), digitChar (nn % 10)],
    (H : ℚ) * 3600 + (M : ℚ) * 60 + (nn : ℚ) / 1000,
    ?_, ?_, ?_, ?_, ?_, ?_, ?_, ?_, rfl, ?_, ?_⟩
  · rw [format_seconds_def, hH, hM, formatFixed3_def, hnn,
      formatInt02_nonneg H hH0, formatInt02_nonneg M hM0]
  · exact padLeftZeros_all_isDigit _ _ (natDigits_all_isDigit _)
  · exact padLeftZeros_all_isDigit _ _ (natDigits_all_isDigit _)
  · exact padLeftZeros_all_isDigit _ _ (natDigits_all_isDigit _)
  · intro c hc
    rcases List.mem_cons.mp hc with rfl | hc
    · exact isDigit_digitChar _ (by omega)
    rcases List.mem_cons.mp hc with rfl | hc
    · exact isDigit_digitChar _ (by omega)
    rcases List.mem_cons.mp hc with rfl | hc
    · exact isDigit_digitChar _ (by omega)
    · simp at hc
  · exact padLeftZeros_length_ge 2 _
  · exact padLeftZeros_length 2 _ (natDigits_length_le _ 2 (by omega) (by norm_num))
  · exact padLeftZeros_length 2 _ (natDigits_length_le _ 2 (by omega) (by norm_num))
  · -- parse the rendered string back
    have hlist : (format_seconds x).toList =
        padLeftZeros 2 (natDigits H.toNat) ++ ':' :: (padLeftZeros 2 (natDigits M.toNat) ++
          ':' :: (padLeftZeros 2 (natDigits (nn / 1000)) ++ '.' ::
            [digitChar (nn % 1000 / 100), digitChar (nn % 1000 / 10 % 10),
              digitChar (nn % 10)])) := by
      rw [format_seconds_def, hH, hM, formatFixed3_def, hnn,
        formatInt02_nonneg H hH0, formatInt02_nonneg M hM0]
    have hfmt : format_seconds x = String.mk
        (padLeftZeros 2 (natDigits H.toNat) ++ ':' :: (padLeftZeros 2 (natDigits M.toNat) ++
          ':' :: (padLeftZeros 2 (natDigits (nn / 1000)) ++ '.' ::
            [digitChar (nn % 1000 / 100), digitChar (nn % 1000 / 10 % 10),
              digitChar (nn % 10)]))) := by
      have hdata : (format_seconds x).data =
          padLeftZeros 2 (natDigits H.toNat) ++ ':' :: (padLeftZeros 2 (natDigits M.toNat) ++
            ':' :: (padLeftZeros 2 (natDigits (nn / 1000)) ++ '.' ::
              [digitChar (nn % 1000 / 100), digitChar (nn % 1000 / 10 % 10),
               digitChar (nn % 10)])) := hlist
      calc format_seconds x = String.mk (format_seconds x).data := rfl
        _ = _ := by rw [hdata]
    rw [hfmt, timestamp_parse_fields _ _ _ _
      (padLeftZeros_ne_nil _ _ (natDigits_ne_nil _))
      (padLeftZeros_ne_nil _ _ (natDigits_ne_nil _))
      (padLeftZeros_ne_nil _ _ (natDigits_ne_nil _))
      (padLeftZeros_all_isDigit _ _ (natDigits_all_isDigit _))
      (padLeftZeros_all_isDigit _ _ (natDigits_all_isDigit _))
      (padLeftZeros_all_isDigit _ _ (natDigits_all_isDigit _))
      (by
        intro c hc
        rcases List.mem_cons.mp hc with rfl | hc
        · exact isDigit_digitChar _ (by omega)
        rcases List.mem_cons.mp hc with rfl | hc
        · exact isDigit_digitChar _ (by omega)
        rcases List.mem_cons.mp hc with rfl | hc
        · exact isDigit_digitChar _ (by omega)
        · simp at hc)]
    have hvalA : digitsToNat (padLeftZeros 2 (natDigits H.toNat)) = H.toNat := by
      rw [digitsToNat_padLeftZeros, digitsToNat_natDigits]
    have hvalB : digitsToNat (padLeftZeros 2 (natDigits M.toNat)) = M.toNat := by
      rw [digitsToNat_padLeftZeros, digitsToNat_natDigits]
    have hvalW : digitsToNat (padLeftZeros 2 (natDigits (nn / 1000))) = nn / 1000 := by
      rw [digitsToNat_padLeftZeros, digitsToNat_natDigits]
    have hvalF : digitsToNat [digitChar (nn % 1000 / 100), digitChar (nn % 1000 / 10 % 10),
        digitChar (nn % 10)] = nn % 1000 := by
      simp only [digitsToNat, List.foldl_cons, List.foldl_nil]
      rw [charVal_digitChar _ (by omega), charVal_digitChar _ (by omega),
        charVal_digitChar _ (by omega)]
      omega
    rw [hvalA, hvalB, hvalW, hvalF]
    have hcastH : ((H.toNat : ℕ) : ℚ) = (H : ℚ) := by
      exact_mod_cast Int.toNat_of_nonneg hH0
    have hcastM : ((M.toNat : ℕ) : ℚ) = (M : ℚ) := by
      exact_mod_cast Int.toNat_of_nonneg hM0
    rw [hcastH, hcastM]
    have hdmQ : ((nn / 1000 : ℕ) : ℚ) * 1000 + ((nn % 1000 : ℕ) : ℚ) = (nn : ℚ) := by
      exact_mod_cast (by omega : nn / 1000 * 1000 + nn % 1000 = nn)
    have hlen3 : ([digitChar (nn % 1000 / 100), digitChar (nn % 1000 / 10 % 10),
        digitChar (nn % 10)] : List Char).length = 3 := rfl
    rw [hlen3]
    congr 1
    rw [show ((10 : ℚ) ^ (3 : ℕ)) = 1000 by norm_num]
    field_simp
    linarith [hdmQ]
  · -- the round-trip error is at most half a millisecond
    have hdecomp := pyMod_decomp x
    rw [hH, hM] at hdecomp
    have hclose := roundHalfEven_close (pyMod x 60 * 1000)
    have hcastn : ((nn : ℕ) : ℚ) = ((roundHalfEven (pyMod x 60 * 1000) : ℤ) : ℚ) := by
      rw [← hnn]
      exact_mod_cast Int.toNat_of_nonneg hn0
    have hyx : (H : ℚ) * 3600 + (M : ℚ) * 60 + (nn : ℚ) / 1000 - x =
        (((roundHalfEven (pyMod x 60 * 1000) : ℤ) : ℚ) - pyMod x 60 * 1000) / 1000 := by
      rw [hcastn]
      field_simp
      linarith [hdecomp]
    rw [hyx, abs_div, abs_of_pos (by norm_num : (0 : ℚ) < 1000)]
    linarith [hclose]

/-- C5: for every nonnegative number of seconds, `_calc_duration`'s
formatting renders `HH:MM:SS.mmm` (hour field at least two digits, minute
and second fields exactly two digits, exactly three decimal places), and
parsing the rendered string back yields the value within one millisecond;
equivalently the round trip holds for every parseable timestamp value. -/
theorem C5_format_parse_roundtrip :
    (∀ x : ℚ, 0 ≤ x →
      (∃ A B W F : List Char,
        (format_seconds x).toList = A ++ ':' :: (B ++ ':' :: (W ++ '.' :: F)) ∧
        (∀ c ∈ A, c.isDigit = true) ∧ (∀ c ∈ B, c.isDigit = true) ∧
        (∀ c ∈ W, c.isDigit = true) ∧ (∀ c ∈ F, c.isDigit = true) ∧
        2 ≤ A.length ∧ B.length = 2 ∧ W.length = 2 ∧ F.length = 3) ∧
      ∃ y : ℚ, timestamp_to_seconds (format_seconds x) = some y ∧ |y - x| ≤ 1 / 1000) ∧
    (∀ (ts : String) (v : ℚ), timestamp_to_seconds ts = some v → 0 ≤ v →
      ∃ y : ℚ, timestamp_to_seconds (format_seconds v) = some y ∧ |y - v| ≤ 1 / 1000) := by
  constructor
  · intro x hx
    obtain ⟨A, B, W, F, y, h1, h2, h3, h4, h5, h6, h7, h8, h9, h10, h11⟩ :=
      format_seconds_spec x hx
    exact ⟨⟨A, B, W, F, h1, h2, h3, h4, h5, h6, h7, h8, h9⟩, y, h10, h11⟩
  · intro ts v _ hv
    obtain ⟨_, _, _, _, y, _, _, _, _, _, _, _, _, _, h10, h11⟩ :=
      format_seconds_spec v hv
    exact ⟨y, h10, h11⟩

/-- Witness for C5: the round trip at 3661.5 seconds. -/
theorem C5_format_parse_roundtrip_witness :
    ∃ y : ℚ, timestamp_to_seconds (format_seconds (3661 + 1 / 2)) = some y ∧
      |y - (3661 + 1 / 2)| ≤ 1 / 1000 :=
  (C5_format_parse_roundtrip.1 (3661 + 1 / 2) (by norm_num)).2

/-- Counterexample to C3 as stated: parse("00:00:00") - parse("00:00:05")
is -5 < 0, yet `_calc_duration` does not fail with `NegativeDuration` (or
at all): it returns the string `"-1:59:55.000"`, produced by Python's
floor-division and modulo arithmetic on the negative difference. -/
theorem C3_counterexample :
    timestamp_to_seconds "00:00:05" = some 5 ∧
    timestamp_to_seconds "00:00:00" = some 0 ∧
    ((0 : ℚ) - 5 < 0) ∧
    calc_duration "00:00:05" "00:00:00" = some "-1:59:55.000" := by
  have h5 : timestamp_to_seconds "00:00:05" = some 5 := by
    norm_num +decide [timestamp_to_seconds, splitOnColon, parsePyIntL, parsePyFloatL,
      parsePyFloatCore, digitsToNat, charVal_0, charVal_5]
  have h0 : timestamp_to_seconds "00:00:00" = some 0 := by
    norm_num +decide [timestamp_to_seconds, splitOnColon, parsePyIntL, parsePyFloatL,
      parsePyFloatCore, digitsToNat, charVal_0]
  refine ⟨h5, h0, by norm_num, ?_⟩
  rw [calc_duration]
  simp only [h0, h5]
  rw [show (0 : ℚ) - 5 = -5 by norm_num]
  have hfl1 : ⌊(-5 : ℚ) / 3600⌋ = -1 := by
    rw [Int.floor_eq_iff]
    norm_num
  have hm1 : pyMod (-5 : ℚ) 3600 = 3595 := by
    rw [pyMod, hfl1]
    norm_num
  have hfl2 : ⌊(3595 : ℚ) / 60⌋ = 59 := by
    rw [Int.floor_eq_iff]
    norm_num
  have hm2 : ⌊pyMod (-5 : ℚ) 3600 / 60⌋ = 59 := by
    rw [hm1]
    exact hfl2
  have hfl3 : ⌊(-5 : ℚ) / 60⌋ = -1 := by
    rw [Int.floor_eq_iff]
    norm_num
  have hs : pyMod (-5 : ℚ) 60 = 55 := by
    rw [pyMod, hfl3]
    norm_num
  have hrnd : roundHalfEven ((55 : ℚ) * 1000) = 55000 := by
    rw [show ((55 : ℚ) * 1000) = ((55000 : ℤ) : ℚ) by norm_num]
    rw [roundHalfEven, Int.fract_intCast, Int.floor_intCast]
    norm_num
  have hlist : (format_seconds (-5 : ℚ)).toList = "-1:59:55.000".toList := by
    rw [format_seconds_def, hfl1, hm2, hs, formatFixed3_def, hrnd]
    decide
  have hdata : (format_seconds (-5 : ℚ)).data = "-1:59:55.000".data := hlist
  have : format_seconds (-5 : ℚ) = "-1:59:55.000" := by
    calc format_seconds (-5 : ℚ) = String.mk (format_seconds (-5 : ℚ)).data := rfl
      _ = String.mk "-1:59:55.000".data := by rw [hdata]
      _ = "-1:59:55.000" := rfl
  rw [this]

/-- C3 amended: `_calc_duration` performs no sign check at all: whenever
both timestamps parse, it returns the formatted difference (so a negative
difference yields a string such as `"-1:59:55.000"` rather than a
`NegativeDuration` failure); for a nonnegative difference the returned
string still denotes `parse(to) - parse(from)`, within one millisecond. -/
theorem C3_duration_no_negative_check (from_ts to_ts : String) (f t : ℚ)
    (hf : timestamp_to_seconds from_ts = some f)
    (ht : timestamp_to_seconds to_ts = some t) :
    calc_duration from_ts to_ts = some (format_seconds (t - f)) ∧
    (0 ≤ t - f → ∃ y : ℚ, timestamp_to_seconds (format_seconds (t - f)) = some y ∧
      |y - (t - f)| ≤ 1 / 1000) := by
  constructor
  · rw [calc_duration]
    simp only [ht, hf]
  · intro hpos
    obtain ⟨_, _, _, _, y, _, _, _, _, _, _, _, _, _, h10, h11⟩ :=
      format_seconds_spec (t - f) hpos
    exact ⟨y, h10, h11⟩

/-- Witness for C3 amended: from 00:00:00 to 00:00:05 the step returns the
formatted difference of 5 seconds. -/
theorem C3_duration_no_negative_check_witness :
    calc_duration "00:00:00" "00:00:05" = some (format_seconds ((5 : ℚ) - 0)) ∧
    (0 ≤ (5 : ℚ) - 0 → ∃ y : ℚ,
      timestamp_to_seconds (format_seconds ((5 : ℚ) - 0)) = some y ∧
      |y - ((5 : ℚ) - 0)| ≤ 1 / 1000) :=
  C3_duration_no_negative_check "00:00:00" "00:00:05" 0 5
    (by norm_num +decide [timestamp_to_seconds, splitOnColon, parsePyIntL, parsePyFloatL,
      parsePyFloatCore, digitsToNat, charVal_0])
    (by norm_num +decide [timestamp_to_seconds, splitOnColon, parsePyIntL, parsePyFloatL,
      parsePyFloatCore, digitsToNat, charVal_0, charVal_5])
